import Mathlib

/-!
Verification of the winctx-rs entry-tree model.

The development shallowly embeds the library's Rust source:
* `src/path.rs` — `get_base_path` / `get_full_path` (pure path derivation);
* `src/entry.rs` — `CtxEntry` and its operations, stated against an explicit
  model of the Windows registry boundary (`Registry`), which replaces the
  external `winreg` crate.  Registry keys are addressed by full path strings,
  each key carrying an association list of named string values.  Failure
  injection is modelled by two components of the registry state:
  `deniedOpen` (opening these key paths fails with permission-denied) and
  `deniedSet` (writing these (key, value-name) pairs fails with
  permission-denied); this captures the `PermissionDenied` failure mode of
  the store that the library documents.
Rust `panic!`/`unwrap` failures are modelled by a dedicated `Outcome.panic`
result, distinct from returned `io::Error`s (`Outcome.err`).
-/

/-- Error kinds of `std::io::ErrorKind` used by the library. -/
inductive ErrorKind where
  | notFound
  | alreadyExists
  | invalidInput
  | permissionDenied
  | other
deriving DecidableEq, Repr

/-- Result of a call: normal return, returned `io::Error`, or Rust panic. -/
inductive Outcome (α : Type) where
  | ok (a : α)
  | err (e : ErrorKind)
  | panic
deriving DecidableEq, Repr

/-- Disposition reported by `RegKey::create_subkey` (`REG_CREATED_NEW_KEY`
vs `REG_OPENED_EXISTING_KEY`). -/
inductive RegDisposition where
  | createdNewKey
  | openedExistingKey
deriving DecidableEq, Repr

/-- Entry activation type (`ActivationType` in `src/entry.rs`). -/
inductive ActivationType where
  | file (ext : String)
  | folder
  | background
deriving DecidableEq, Repr

/-- Entry position in the context menu (`MenuPosition`). -/
inductive MenuPosition where
  | top
  | bottom
deriving DecidableEq, Repr

/-- Context menu separator (`Separator`). -/
inductive Separator where
  | before
  | after
  | both
deriving DecidableEq, Repr

/-- Options for further customizing an entry (`EntryOptions`). -/
structure EntryOptions where
  command : Option String
  icon : Option String
  position : Option MenuPosition
  separator : Option Separator
  extended : Bool
deriving DecidableEq, Repr

/-- An entry handle (`CtxEntry`): the in-memory name path and type. -/
structure CtxEntry where
  path : List String
  entry_type : ActivationType
deriving DecidableEq, Repr

/-! ## Embedding of `src/path.rs` -/

/-- Rust `get_base_path` in `src/path.rs`. -/
def get_base_path (entry_type : ActivationType) : String :=
  match entry_type with
  | .file ext => ext
  | .folder => "Directory"
  | .background => "Directory\\Background"

/-- Rust `get_full_path` in `src/path.rs`: start from the base path, append
a bare container segment when the name path is empty, then interleave
a `\shell\` segment before every name. -/
def get_full_path (entry_type : ActivationType) (name_path : List String) : String :=
  let path := get_base_path entry_type
  let path := if name_path.length = 0 then path ++ "\\shell" else path
  name_path.foldl (fun acc entry_name => acc ++ "\\shell\\" ++ entry_name) path

/-! ## Character-level view of path derivation (for the injectivity claim) -/

/-- Characters of the fixed interleaved segment `"\shell\"`. -/
def sepChars : List Char := ['\\', 's', 'h', 'e', 'l', 'l', '\\']

/-- Character-level encoding of a name path: for every name, the separator
segment followed by the name's characters. -/
def encNames : List String → List Char
  | [] => []
  | n :: ns => sepChars ++ (n.data ++ encNames ns)

/-- A name is backslash-free (the separator character does not occur in it). -/
def noBackslash (s : String) : Prop := '\\' ∉ s.data

instance (s : String) : Decidable (noBackslash s) := by
  unfold noBackslash; infer_instance

/-- Decidable equality for store results (used to evaluate concrete states). -/
def exceptDecEq {E A : Type} [DecidableEq E] [DecidableEq A] :
    DecidableEq (Except E A)
  | .error e1, .error e2 =>
    if h : e1 = e2 then isTrue (by rw [h])
    else isFalse (by intro hc; cases hc; exact h rfl)
  | .error _, .ok _ => isFalse (by intro hc; cases hc)
  | .ok _, .error _ => isFalse (by intro hc; cases hc)
  | .ok a1, .ok a2 =>
    if h : a1 = a2 then isTrue (by rw [h])
    else isFalse (by intro hc; cases hc; exact h rfl)

instance {E A : Type} [DecidableEq E] [DecidableEq A] : DecidableEq (Except E A) :=
  exceptDecEq

/-! ## Model of the registry store boundary (the external `winreg` crate)

Keys are addressed by full path strings under `HKEY_CLASSES_ROOT`.  Each key
holds an association list of named string values.  Creation of intermediate
ancestor keys by `create_subkey` is not modelled; states used in theorems
list every key explicitly. -/

structure Registry where
  keys : List (String × List (String × String))
  deniedOpen : List String
  deniedSet : List (String × String)
deriving DecidableEq, Repr

def Registry.keyExists (r : Registry) (p : String) : Bool :=
  r.keys.any (fun kv => kv.1 == p)

def Registry.getKeyValues (r : Registry) (p : String) : Option (List (String × String)) :=
  (r.keys.find? (fun kv => kv.1 == p)).map (fun kv => kv.2)

/-- Model of `RegKey::open_subkey` / `open_subkey_with_flags`: missing key
fails with not-found, a denied key fails with permission-denied. -/
def Registry.openSubkey (r : Registry) (p : String) : Except ErrorKind Unit :=
  if r.keyExists p then
    if r.deniedOpen.contains p then .error .permissionDenied else .ok ()
  else .error .notFound

/-- Model of `RegKey::create_subkey`: opens the key if it exists, otherwise
inserts a fresh empty key, reporting the creation disposition. -/
def Registry.createSubkey (r : Registry) (p : String) : Registry × RegDisposition :=
  if r.keyExists p then (r, .openedExistingKey)
  else ({ r with keys := r.keys ++ [(p, [])] }, .createdNewKey)

/-- Values of key `p` after writing value `n := v` (insert-or-overwrite). -/
def updVals (n v : String) (vs : List (String × String)) : List (String × String) :=
  (n, v) :: vs.filter (fun nv => nv.1 != n)

/-- Key list after writing value `n := v` on key `p`. -/
def setKs (p n v : String) :
    List (String × List (String × String)) → List (String × List (String × String))
  | [] => []
  | kv :: ks => (if kv.1 == p then (kv.1, updVals n v kv.2) else kv) :: setKs p n v ks

/-- Key list after removing value `n` from key `p`. -/
def delKs (p n : String) :
    List (String × List (String × String)) → List (String × List (String × String))
  | [] => []
  | kv :: ks =>
    (if kv.1 == p then (kv.1, kv.2.filter (fun nv => nv.1 != n)) else kv) :: delKs p n ks

/-- Model of `RegKey::set_value` on key `p`. -/
def Registry.setValue (r : Registry) (p n v : String) : Except ErrorKind Registry :=
  if r.deniedSet.contains (p, n) then .error .permissionDenied
  else if r.keyExists p then .ok { r with keys := setKs p n v r.keys }
  else .error .notFound

/-- Model of `RegKey::get_value` on key `p`. -/
def Registry.getValue (r : Registry) (p n : String) : Except ErrorKind String :=
  match r.getKeyValues p with
  | none => .error .notFound
  | some vs =>
    match vs.find? (fun nv => nv.1 == n) with
    | none => .error .notFound
    | some nv => .ok nv.2

/-- Model of `RegKey::delete_value` on key `p`. -/
def Registry.deleteValue (r : Registry) (p n : String) : Except ErrorKind Registry :=
  match r.getKeyValues p with
  | none => .error .notFound
  | some vs =>
    if vs.any (fun nv => nv.1 == n) then .ok { r with keys := delKs p n r.keys }
    else .error .notFound

/-- Whether key `p` has sub-keys (any key path strictly below it). -/
def Registry.hasChildKeys (r : Registry) (p : String) : Bool :=
  r.keys.any (fun kv => (p.data ++ ['\\']).isPrefixOf kv.1.data)

/-- Model of `RegKey::delete_subkey`: deletes a childless key. -/
def Registry.deleteSubkey (r : Registry) (p : String) : Except ErrorKind Registry :=
  if !(r.keyExists p) then .error .notFound
  else if r.hasChildKeys p then .error .other
  else .ok { r with keys := r.keys.filter (fun kv => kv.1 != p) }

/-- Model of `RegKey::delete_subkey_all`: deletes a key and its subtree. -/
def Registry.deleteSubkeyAll (r : Registry) (p : String) : Except ErrorKind Registry :=
  if !(r.keyExists p) then .error .notFound
  else .ok { r with keys := r.keys.filter (fun kv =>
    !(kv.1 == p) && !((p.data ++ ['\\']).isPrefixOf kv.1.data)) }

/-- Rewrites one key path for a subtree rename from `oldP` to `newP`. -/
def replaceKeyPath (oldP newP : String) (q : String) : String :=
  if q == oldP then newP
  else if (oldP.data ++ ['\\']).isPrefixOf q.data then
    String.mk (newP.data ++ q.data.drop oldP.data.length)
  else q

/-- Model of `RegKey::rename_subkey` on a parent key: fails with not-found
when the old child is missing, with already-exists when the new name is
taken, and otherwise renames the whole subtree. -/
def Registry.renameSubkey (r : Registry) (parentPath oldName newName : String) :
    Except ErrorKind Registry :=
  let oldP := parentPath ++ "\\" ++ oldName
  let newP := parentPath ++ "\\" ++ newName
  if !(r.keyExists oldP) then .error .notFound
  else if r.keyExists newP then .error .alreadyExists
  else .ok { r with keys := r.keys.map (fun kv => (replaceKeyPath oldP newP kv.1, kv.2)) }

/-- Model of `RegKey::enum_keys`: the names of the immediate sub-keys. -/
def Registry.enumKeys (r : Registry) (p : String) : List String :=
  r.keys.filterMap (fun kv =>
    if (p.data ++ ['\\']).isPrefixOf kv.1.data then
      let rest := kv.1.data.drop (p.data.length + 1)
      if rest ≠ [] ∧ '\\' ∉ rest then some ⟨rest⟩ else none
    else none)

/-- Rust `get_key` at the bottom of `src/entry.rs`: opens the key with all
access, remapping the not-found failure to a not-found error with a fixed
message (messages are not modelled; the kind is unchanged). -/
def get_key (path : String) (r : Registry) : Except ErrorKind Unit :=
  match r.openSubkey path with
  | .error .notFound => .error .notFound
  | .error e => .error e
  | .ok _ => .ok ()

/-! ## Embedding of `src/entry.rs` (`impl CtxEntry`)

Read-only operations take the registry and return a result; mutating
operations additionally return the final registry (the store's side effects
persist even when the call returns an error, as in the Rust code). -/

def exceptToOption {α : Type} : Except ErrorKind α → Option α
  | .ok a => some a
  | .error _ => none

/-- Rust `CtxEntry::path`: the full registry path of the entry. -/
def CtxEntry.pathStr (e : CtxEntry) : String :=
  get_full_path e.entry_type e.path

/-- Rust `CtxEntry::key`: opens the entry's registry key. -/
def CtxEntry.key (e : CtxEntry) (r : Registry) : Except ErrorKind Unit :=
  get_key e.pathStr r

/-- Rust `CtxEntry::get`: empty name paths yield `None`; otherwise the key
is opened and only a not-found failure yields `None` — any other outcome
(success or another error) yields a handle. -/
def CtxEntry.get (name_path : List String) (entry_type : ActivationType)
    (r : Registry) : Option CtxEntry :=
  if name_path.length = 0 then none
  else
    let str_path := name_path.foldl
      (fun acc entry_name => acc ++ ("\\shell\\" ++ entry_name)) (get_base_path entry_type)
    match get_key str_path r with
    | .error .notFound => none
    | _ => some { path := name_path, entry_type := entry_type }

/-- Loop body of `CtxEntry::get_all_of_type` over the enumerated names
(the `HashMap` is modelled as an association list in insertion order). -/
def get_all_aux (entry_type : ActivationType) (r : Registry) :
    List String → List (String × CtxEntry) → List (String × CtxEntry)
  | [], acc => acc
  | n :: ns, acc =>
    match CtxEntry.get [n] entry_type r with
    | some entry => get_all_aux entry_type r ns (acc ++ [(n, entry)])
    | none => get_all_aux entry_type r ns acc

/-- Rust `CtxEntry::get_all_of_type`: enumerate the context's root container
and resolve each name via `get`, silently skipping unresolvable names. -/
def CtxEntry.get_all_of_type (entry_type : ActivationType) (r : Registry) :
    List (String × CtxEntry) :=
  let base_path := get_base_path entry_type
  let shell_path := base_path ++ "\\shell"
  match get_key shell_path r with
  | .error _ => []
  | .ok _ => get_all_aux entry_type r (r.enumKeys shell_path) []

/-- Rust `CtxEntry::safe_delete_value`: delete a value, tolerating absence. -/
def CtxEntry.safe_delete_value (e : CtxEntry) (value : String) (r : Registry) :
    Outcome Unit × Registry :=
  match e.key r with
  | .error er => (.err er, r)
  | .ok _ =>
    match r.deleteValue e.pathStr value with
    | .error .notFound => (.ok (), r)
    | .error er => (.err er, r)
    | .ok r1 => (.ok (), r1)

/-- Rust `CtxEntry::command`: opens the nested `command` key (propagating
its failure) and reads its default value, mapping a read failure to `None`. -/
def CtxEntry.command (e : CtxEntry) (r : Registry) : Outcome (Option String) :=
  let path := e.pathStr ++ "\\command"
  match get_key path r with
  | .error er => .err er
  | .ok _ => .ok (exceptToOption (r.getValue path ""))

/-- Rust `CtxEntry::set_command`: writes the default value of the nested
`command` key, or deletes that key (tolerating absence). -/
def CtxEntry.set_command (e : CtxEntry) (command : Option String) (r : Registry) :
    Outcome Unit × Registry :=
  match e.key r with
  | .error er => (.err er, r)
  | .ok _ =>
    match command with
    | some c =>
      let (r1, _) := r.createSubkey (e.pathStr ++ "\\command")
      match r1.setValue (e.pathStr ++ "\\command") "" c with
      | .ok r2 => (.ok (), r2)
      | .error er => (.err er, r1)
    | none =>
      match r.deleteSubkey (e.pathStr ++ "\\command") with
      | .error .notFound => (.ok (), r)
      | .error er => (.err er, r)
      | .ok r1 => (.ok (), r1)

/-- Rust `CtxEntry::icon`. -/
def CtxEntry.icon (e : CtxEntry) (r : Registry) : Outcome (Option String) :=
  match e.key r with
  | .error er => .err er
  | .ok _ => .ok (exceptToOption (r.getValue e.pathStr "Icon"))

/-- Rust `CtxEntry::set_icon`. -/
def CtxEntry.set_icon (e : CtxEntry) (icon : Option String) (r : Registry) :
    Outcome Unit × Registry :=
  match e.key r with
  | .error er => (.err er, r)
  | .ok _ =>
    match icon with
    | some i =>
      match r.setValue e.pathStr "Icon" i with
      | .ok r1 => (.ok (), r1)
      | .error er => (.err er, r)
    | none => e.safe_delete_value "Icon" r

/-- Rust `CtxEntry::position`: only the two literal tokens parse. -/
def CtxEntry.position (e : CtxEntry) (r : Registry) : Outcome (Option MenuPosition) :=
  match e.key r with
  | .error er => .err er
  | .ok _ =>
    match r.getValue e.pathStr "Position" with
    | .ok v =>
      if v = "Top" then .ok (some .top)
      else if v = "Bottom" then .ok (some .bottom)
      else .ok none
    | .error _ => .ok none

/-- Rust `CtxEntry::set_position`. -/
def CtxEntry.set_position (e : CtxEntry) (position : Option MenuPosition) (r : Registry) :
    Outcome Unit × Registry :=
  match position with
  | none => e.safe_delete_value "Position" r
  | some pos =>
    let position_str := match pos with
      | .top => "Top"
      | .bottom => "Bottom"
    match e.key r with
    | .error er => (.err er, r)
    | .ok _ =>
      match r.setValue e.pathStr "Position" position_str with
      | .ok r1 => (.ok (), r1)
      | .error er => (.err er, r)

/-- Rust `CtxEntry::extended`: presence of the marker value. -/
def CtxEntry.extended (e : CtxEntry) (r : Registry) : Outcome Bool :=
  match e.key r with
  | .error er => .err er
  | .ok _ => .ok (exceptToOption (r.getValue e.pathStr "Extended")).isSome

/-- Rust `CtxEntry::set_extended`. -/
def CtxEntry.set_extended (e : CtxEntry) (extended : Bool) (r : Registry) :
    Outcome Unit × Registry :=
  if extended then
    match e.key r with
    | .error er => (.err er, r)
    | .ok _ =>
      match r.setValue e.pathStr "Extended" "" with
      | .ok r1 => (.ok (), r1)
      | .error er => (.err er, r)
  else e.safe_delete_value "Extended" r

/-- Rust `CtxEntry::separator`: composite of the two marker values. -/
def CtxEntry.separator (e : CtxEntry) (r : Registry) : Outcome (Option Separator) :=
  match e.key r with
  | .error er => .err er
  | .ok _ =>
    let sep_before := r.getValue e.pathStr "SeparatorBefore"
    let sep_after := r.getValue e.pathStr "SeparatorAfter"
    match sep_before, sep_after with
    | .ok _, .ok _ => .ok (some .both)
    | .ok _, .error _ => .ok (some .before)
    | .error _, .ok _ => .ok (some .after)
    | .error _, .error _ => .ok none

/-- Rust `CtxEntry::set_separator`: set exactly the markers of the variant
and clear the others. -/
def CtxEntry.set_separator (e : CtxEntry) (separator : Option Separator) (r : Registry) :
    Outcome Unit × Registry :=
  match e.key r with
  | .error er => (.err er, r)
  | .ok _ =>
    match separator with
    | some .before =>
      match r.setValue e.pathStr "SeparatorBefore" "" with
      | .error er => (.err er, r)
      | .ok r1 =>
        match e.safe_delete_value "SeparatorAfter" r1 with
        | (.ok _, r2) => (.ok (), r2)
        | (o, r2) => (o, r2)
    | some .after =>
      match r.setValue e.pathStr "SeparatorAfter" "" with
      | .error er => (.err er, r)
      | .ok r1 =>
        match e.safe_delete_value "SeparatorBefore" r1 with
        | (.ok _, r2) => (.ok (), r2)
        | (o, r2) => (o, r2)
    | some .both =>
      match r.setValue e.pathStr "SeparatorBefore" "" with
      | .error er => (.err er, r)
      | .ok r1 =>
        match r1.setValue e.pathStr "SeparatorAfter" "" with
        | .error er => (.err er, r1)
        | .ok r2 => (.ok (), r2)
    | none =>
      match e.safe_delete_value "SeparatorBefore" r with
      | (.ok _, r1) =>
        match e.safe_delete_value "SeparatorAfter" r1 with
        | (.ok _, r2) => (.ok (), r2)
        | (o, r2) => (o, r2)
      | (o, r1) => (o, r1)

/-- Rust `CtxEntry::create` (private): create the key at the full path,
reject an opened-existing disposition with already-exists, then apply the
initial attributes in source order (command, icon, position, extended;
the separator option is not applied by `create`). -/
def CtxEntry.create (name_path : List String) (entry_type : ActivationType)
    (opts : EntryOptions) (r : Registry) : Outcome CtxEntry × Registry :=
  let path_str := get_full_path entry_type name_path
  let (r1, disp) := r.createSubkey path_str
  if disp = .openedExistingKey then (.err .alreadyExists, r1)
  else
    let entry : CtxEntry := { path := name_path, entry_type := entry_type }
    match entry.set_command opts.command r1 with
    | (.ok _, r2) =>
      match entry.set_icon opts.icon r2 with
      | (.ok _, r3) =>
        match entry.set_position opts.position r3 with
        | (.ok _, r4) =>
          match entry.set_extended opts.extended r4 with
          | (.ok _, r5) => (.ok entry, r5)
          | (.err er, r5) => (.err er, r5)
          | (.panic, r5) => (.panic, r5)
        | (.err er, r4) => (.err er, r4)
        | (.panic, r4) => (.panic, r4)
      | (.err er, r3) => (.err er, r3)
      | (.panic, r3) => (.panic, r3)
    | (.err er, r2) => (.err er, r2)
    | (.panic, r2) => (.panic, r2)

/-- Rust `CtxEntry::new_with_options`. -/
def CtxEntry.new_with_options (name : String) (entry_type : ActivationType)
    (opts : EntryOptions) (r : Registry) : Outcome CtxEntry × Registry :=
  CtxEntry.create [name] entry_type opts r

/-- Rust `CtxEntry::new`: `new_with_options` with every option unset. -/
def CtxEntry.new (name : String) (entry_type : ActivationType) (r : Registry) :
    Outcome CtxEntry × Registry :=
  CtxEntry.new_with_options name entry_type
    { command := none, icon := none, position := none, separator := none,
      extended := false } r

/-- Rust `CtxEntry::delete`: recursively delete the entry's subtree. -/
def CtxEntry.delete (e : CtxEntry) (r : Registry) : Outcome Unit × Registry :=
  match r.deleteSubkeyAll e.pathStr with
  | .ok r1 => (.ok (), r1)
  | .error er => (.err er, r)

/-- Rust `CtxEntry::name`: check the key still exists, then return the last
name-path segment; the Rust `last().unwrap()` panics on an empty path. -/
def CtxEntry.name (e : CtxEntry) (r : Registry) : Outcome String :=
  match e.key r with
  | .error er => .err er
  | .ok _ =>
    match e.path.getLast? with
    | some n => .ok n
    | none => .panic

/-- Rust `CtxEntry::rename`: returns the call's outcome together with the
final handle and registry.  An empty name is rejected up front; after the
store-level rename is invoked its result is captured, the in-memory name
path is updated unconditionally, and the captured result is returned. -/
def CtxEntry.rename (e : CtxEntry) (new_name : String) (r : Registry) :
    Outcome Unit × CtxEntry × Registry :=
  if new_name.length = 0 then (.err .invalidInput, e, r)
  else
    match e.name r with
    | .err er => (.err er, e, r)
    | .panic => (.panic, e, r)
    | .ok old_name =>
      let parent_name_path := e.path.dropLast
      let parent_path_str := get_full_path e.entry_type parent_name_path
      match r.openSubkey parent_path_str with
      | .error er => (.err er, e, r)
      | .ok _ =>
        let res := r.renameSubkey parent_path_str old_name new_name
        let e2 : CtxEntry := { e with path := e.path.dropLast ++ [new_name] }
        match res with
        | .ok r1 => (.ok (), e2, r1)
        | .error er => (.err er, e2, r)

/-- Rust `CtxEntry::parent`: single-segment paths have no parent; otherwise
resolve the truncated name path via `get`. -/
def CtxEntry.parent (e : CtxEntry) (r : Registry) : Option CtxEntry :=
  if e.path.length ≤ 1 then none
  else CtxEntry.get e.path.dropLast e.entry_type r

/-- Rust `CtxEntry::child`: resolve one named child by path, converting a
not-found failure into `None` and propagating other failures. -/
def CtxEntry.child (e : CtxEntry) (name : String) (r : Registry) :
    Except ErrorKind (Option CtxEntry) :=
  let name_path := e.path ++ [name]
  let path_str := get_full_path e.entry_type name_path
  match get_key path_str r with
  | .ok _ => .ok (some { path := name_path, entry_type := e.entry_type })
  | .error .notFound => .ok none
  | .error er => .error er

/-- Loop body of `CtxEntry::children`: the Rust code double-unwraps the
result of `child`, so both an error and an absent child panic. -/
def childrenAux (e : CtxEntry) (r : Registry) :
    List String → List CtxEntry → Outcome (List CtxEntry)
  | [], acc => .ok acc
  | n :: ns, acc =>
    match e.child n r with
    | .ok (some c) => childrenAux e r ns (acc ++ [c])
    | _ => .panic

/-- Rust `CtxEntry::children`: open the entry's own key, enumerate its
immediate sub-key names, and resolve each via `child`. -/
def CtxEntry.children (e : CtxEntry) (r : Registry) : Outcome (List CtxEntry) :=
  match e.key r with
  | .error er => .err er
  | .ok _ => childrenAux e r (r.enumKeys e.pathStr) []

/-- Rust `CtxEntry::new_child_with_options`: mark the parent with the
`Subcommands` value, then delegate to `create` on the extended path. -/
def CtxEntry.new_child_with_options (e : CtxEntry) (name : String)
    (opts : EntryOptions) (r : Registry) : Outcome CtxEntry × Registry :=
  match e.key r with
  | .error er => (.err er, r)
  | .ok _ =>
    match r.setValue e.pathStr "Subcommands" "" with
    | .error er => (.err er, r)
    | .ok r1 => CtxEntry.create (e.path ++ [name]) e.entry_type opts r1

/-- Rust `CtxEntry::new_child`: `new_child_with_options` with empty options. -/
def CtxEntry.new_child (e : CtxEntry) (name : String) (r : Registry) :
    Outcome CtxEntry × Registry :=
  e.new_child_with_options name
    { command := none, icon := none, position := none, separator := none,
      extended := false } r


/-! ## Concrete sample states used by witnesses and counterexamples -/

/-- Registry with the folder context containers and one root entry `X`. -/
def regFolderX : Registry :=
  { keys := [("Directory", []), ("Directory\\shell", []), ("Directory\\shell\\X", [])],
    deniedOpen := [], deniedSet := [] }

/-- Same layout as `regFolderX` but opening entry `X` is permission-denied. -/
def regDeniedX : Registry :=
  { keys := [("Directory", []), ("Directory\\shell", []), ("Directory\\shell\\X", [])],
    deniedOpen := ["Directory\\shell\\X"], deniedSet := [] }

/-- Registry with only the folder context containers (no entries). -/
def regBase : Registry :=
  { keys := [("Directory", []), ("Directory\\shell", [])], deniedOpen := [], deniedSet := [] }

/-- A fully populated option set (the separator option is ignored by `create`). -/
def optsFull : EntryOptions :=
  { command := some "cmd /s /k pushd %V", icon := some "cmd.exe",
    position := some .top, separator := some .both, extended := true }

/-- Handle for the root entry `X` under the folder context. -/
def entryX : CtxEntry := { path := ["X"], entry_type := .folder }

/-- Base registry where writing the `Icon` value of entry `X` is denied. -/
def regDenyIcon : Registry :=
  { regBase with deniedSet := [("Directory\\shell\\X", "Icon")] }

/-- Base registry where writing the `Position` value of entry `X` is denied. -/
def regDenyPosition : Registry :=
  { regBase with deniedSet := [("Directory\\shell\\X", "Position")] }

/-- Base registry where writing the `Extended` value of entry `X` is denied. -/
def regDenyExtended : Registry :=
  { regBase with deniedSet := [("Directory\\shell\\X", "Extended")] }

/-- Registry with two sibling root entries `P` and `Q` under the folder context. -/
def regPQ : Registry :=
  { keys := [("Directory", []), ("Directory\\shell", []), ("Directory\\shell\\P", []),
             ("Directory\\shell\\Q", [])],
    deniedOpen := [], deniedSet := [] }

/-- Registry after creating root entry `P` and its child `C` (as `new_child`
would lay them out, including the intermediate `shell` container key). -/
def regParentChild : Registry :=
  { keys := [("Directory", []), ("Directory\\shell", []),
             ("Directory\\shell\\P", [("Subcommands", "")]),
             ("Directory\\shell\\P\\shell", []),
             ("Directory\\shell\\P\\shell\\C", [])],
    deniedOpen := [], deniedSet := [] }

/-- Handle for the root entry `P` under the folder context. -/
def entryP : CtxEntry := { path := ["P"], entry_type := .folder }

/-! ## Lemmas on character-level path derivation -/

theorem strData_append (a b : String) : (a ++ b).data = a.data ++ b.data := by
  cases a; cases b; rfl

theorem foldl_full_path_data (ns : List String) (p : String) :
    (ns.foldl (fun acc entry_name => acc ++ "\\shell\\" ++ entry_name) p).data
      = p.data ++ encNames ns := by
  induction ns generalizing p with
  | nil => simp [encNames]
  | cons n ns ih =>
    simp only [List.foldl_cons, ih, strData_append, encNames]
    have hsep : ("\\shell\\" : String).data = sepChars := by decide
    simp [hsep, sepChars, List.append_assoc]

theorem get_full_path_data (t : ActivationType) (np : List String) (h : np ≠ []) :
    (get_full_path t np).data = (get_base_path t).data ++ encNames np := by
  unfold get_full_path
  have hlen : np.length ≠ 0 := by
    simpa using List.length_pos.mpr h |>.ne'
  simp only [if_neg hlen]
  exact foldl_full_path_data np (get_base_path t)

theorem split_backslash_free :
    ∀ (a b u v : List Char),
      (∀ c ∈ a, c ≠ '\\') → (∀ c ∈ b, c ≠ '\\') →
      (u = [] ∨ ∃ w, u = '\\' :: w) → (v = [] ∨ ∃ w, v = '\\' :: w) →
      a ++ u = b ++ v → a = b ∧ u = v := by
  intro a
  induction a with
  | nil =>
    intro b u v _ hb hu _ heq
    cases b with
    | nil => exact ⟨rfl, heq⟩
    | cons d b' =>
      exfalso
      rcases hu with rfl | ⟨w, rfl⟩
      · simp at heq
      · simp only [List.nil_append, List.cons_append, List.cons.injEq] at heq
        exact hb d (by simp) heq.1.symm
  | cons c a' ih =>
    intro b u v ha hb hu hv heq
    cases b with
    | nil =>
      exfalso
      rcases hv with rfl | ⟨w, rfl⟩
      · simp at heq
      · simp only [List.nil_append, List.cons_append, List.cons.injEq] at heq
        exact ha c (by simp) heq.1
    | cons d b' =>
      simp only [List.cons_append, List.cons.injEq] at heq
      obtain ⟨hcd, htail⟩ := heq
      have := ih b' u v (fun x hx => ha x (by simp [hx]))
        (fun x hx => hb x (by simp [hx])) hu hv htail
      exact ⟨by simp [hcd, this.1], this.2⟩

theorem encNames_shape (ns : List String) :
    encNames ns = [] ∨ ∃ w, encNames ns = '\\' :: w := by
  cases ns with
  | nil => exact Or.inl rfl
  | cons n ns => exact Or.inr ⟨_, rfl⟩

theorem encNames_injective :
    ∀ (ns ms : List String),
      (∀ n ∈ ns, noBackslash n) → (∀ m ∈ ms, noBackslash m) →
      encNames ns = encNames ms → ns = ms := by
  intro ns
  induction ns with
  | nil =>
    intro ms _ _ heq
    cases ms with
    | nil => rfl
    | cons m ms => simp [encNames, sepChars] at heq
  | cons n ns ih =>
    intro ms hns hms heq
    cases ms with
    | nil => simp [encNames, sepChars] at heq
    | cons m ms =>
      simp only [encNames] at heq
      have htail : n.data ++ encNames ns = m.data ++ encNames ms :=
        List.append_cancel_left heq
      have hn : ∀ c ∈ n.data, c ≠ '\\' := by
        intro c hc hcontra
        exact (hns n (by simp)) (hcontra ▸ hc)
      have hm : ∀ c ∈ m.data, c ≠ '\\' := by
        intro c hc hcontra
        exact (hms m (by simp)) (hcontra ▸ hc)
      have hsplit := split_backslash_free n.data m.data (encNames ns) (encNames ms)
        hn hm (encNames_shape ns) (encNames_shape ms) htail
      have hnm : n = m := by
        cases n; cases m
        exact congrArg String.mk hsplit.1
      have hrest := ih ms (fun x hx => hns x (by simp [hx]))
        (fun x hx => hms x (by simp [hx])) hsplit.2
      simp [hnm, hrest]


/-! ## Lemmas about the registry value store -/

theorem any_setKs (p n v q : String) (ks : List (String × List (String × String))) :
    (setKs p n v ks).any (fun kv => kv.1 == q) = ks.any (fun kv => kv.1 == q) := by
  induction ks with
  | nil => rfl
  | cons kv ks ih =>
    simp only [setKs, List.any_cons, ih]
    by_cases h : kv.1 = p
    · simp [h]
    · simp [h]

theorem any_delKs (p n q : String) (ks : List (String × List (String × String))) :
    (delKs p n ks).any (fun kv => kv.1 == q) = ks.any (fun kv => kv.1 == q) := by
  induction ks with
  | nil => rfl
  | cons kv ks ih =>
    simp only [delKs, List.any_cons, ih]
    by_cases h : kv.1 = p
    · simp [h]
    · simp [h]

theorem find?_setKs_self (p n v : String) (ks : List (String × List (String × String))) :
    (setKs p n v ks).find? (fun kv => kv.1 == p)
      = (ks.find? (fun kv => kv.1 == p)).map (fun kv => (kv.1, updVals n v kv.2)) := by
  induction ks with
  | nil => rfl
  | cons kv ks ih =>
    by_cases h : kv.1 = p
    · have h1 : (if kv.1 == p then (kv.1, updVals n v kv.2) else kv) = (kv.1, updVals n v kv.2) := by
        simp [h]
      simp only [setKs, h1]
      rw [List.find?_cons_of_pos _ (by simp [h]), List.find?_cons_of_pos _ (by simp [h])]
      simp
    · have h1 : (if kv.1 == p then (kv.1, updVals n v kv.2) else kv) = kv := by
        simp [h]
      simp only [setKs, h1]
      rw [List.find?_cons_of_neg _ (by simp [h]), List.find?_cons_of_neg _ (by simp [h])]
      exact ih

theorem find?_setKs_other (p n v q : String) (hq : q ≠ p)
    (ks : List (String × List (String × String))) :
    (setKs p n v ks).find? (fun kv => kv.1 == q) = ks.find? (fun kv => kv.1 == q) := by
  induction ks with
  | nil => rfl
  | cons kv ks ih =>
    by_cases h : kv.1 = p
    · have hnq : ¬ (kv.1 = q) := by rw [h]; exact fun hc => hq hc.symm
      have h1 : (if kv.1 == p then (kv.1, updVals n v kv.2) else kv) = (kv.1, updVals n v kv.2) := by
        simp [h]
      simp only [setKs, h1]
      rw [List.find?_cons_of_neg _ (by simp [hnq]), List.find?_cons_of_neg _ (by simp [hnq])]
      exact ih
    · have h1 : (if kv.1 == p then (kv.1, updVals n v kv.2) else kv) = kv := by
        simp [h]
      simp only [setKs, h1]
      by_cases h2 : kv.1 = q
      · rw [List.find?_cons_of_pos _ (by simp [h2]), List.find?_cons_of_pos _ (by simp [h2])]
      · rw [List.find?_cons_of_neg _ (by simp [h2]), List.find?_cons_of_neg _ (by simp [h2])]
        exact ih

theorem find?_delKs_self (p n : String) (ks : List (String × List (String × String))) :
    (delKs p n ks).find? (fun kv => kv.1 == p)
      = (ks.find? (fun kv => kv.1 == p)).map
          (fun kv => (kv.1, kv.2.filter (fun nv => nv.1 != n))) := by
  induction ks with
  | nil => rfl
  | cons kv ks ih =>
    by_cases h : kv.1 = p
    · have h1 : (if kv.1 == p then (kv.1, kv.2.filter (fun nv => nv.1 != n)) else kv)
          = (kv.1, kv.2.filter (fun nv => nv.1 != n)) := by simp [h]
      simp only [delKs, h1]
      rw [List.find?_cons_of_pos _ (by simp [h]), List.find?_cons_of_pos _ (by simp [h])]
      simp
    · have h1 : (if kv.1 == p then (kv.1, kv.2.filter (fun nv => nv.1 != n)) else kv) = kv := by
        simp [h]
      simp only [delKs, h1]
      rw [List.find?_cons_of_neg _ (by simp [h]), List.find?_cons_of_neg _ (by simp [h])]
      exact ih

theorem find?_delKs_other (p n q : String) (hq : q ≠ p)
    (ks : List (String × List (String × String))) :
    (delKs p n ks).find? (fun kv => kv.1 == q) = ks.find? (fun kv => kv.1 == q) := by
  induction ks with
  | nil => rfl
  | cons kv ks ih =>
    by_cases h : kv.1 = p
    · have hnq : ¬ (kv.1 = q) := by rw [h]; exact fun hc => hq hc.symm
      have h1 : (if kv.1 == p then (kv.1, kv.2.filter (fun nv => nv.1 != n)) else kv)
          = (kv.1, kv.2.filter (fun nv => nv.1 != n)) := by simp [h]
      simp only [delKs, h1]
      rw [List.find?_cons_of_neg _ (by simp [hnq]), List.find?_cons_of_neg _ (by simp [hnq])]
      exact ih
    · have h1 : (if kv.1 == p then (kv.1, kv.2.filter (fun nv => nv.1 != n)) else kv) = kv := by
        simp [h]
      simp only [delKs, h1]
      by_cases h2 : kv.1 = q
      · rw [List.find?_cons_of_pos _ (by simp [h2]), List.find?_cons_of_pos _ (by simp [h2])]
      · rw [List.find?_cons_of_neg _ (by simp [h2]), List.find?_cons_of_neg _ (by simp [h2])]
        exact ih

theorem findVal_updVals_same (n v : String) (vs : List (String × String)) :
    (updVals n v vs).find? (fun nv => nv.1 == n) = some (n, v) := by
  simp only [updVals]
  rw [List.find?_cons_of_pos _ (by simp)]

theorem findVal_filter_self (n : String) (vs : List (String × String)) :
    (vs.filter (fun nv => nv.1 != n)).find? (fun nv => nv.1 == n) = none := by
  induction vs with
  | nil => rfl
  | cons nv vs ih =>
    by_cases h : nv.1 = n
    · rw [List.filter_cons_of_neg (by simp [h])]
      exact ih
    · rw [List.filter_cons_of_pos (by simp [h]), List.find?_cons_of_neg _ (by simp [h])]
      exact ih

theorem findVal_filter_other (n m : String) (hm : m ≠ n) (vs : List (String × String)) :
    (vs.filter (fun nv => nv.1 != n)).find? (fun nv => nv.1 == m)
      = vs.find? (fun nv => nv.1 == m) := by
  induction vs with
  | nil => rfl
  | cons nv vs ih =>
    by_cases h : nv.1 = n
    · have hnm : ¬ (nv.1 = m) := by rw [h]; exact fun hc => hm hc.symm
      rw [List.filter_cons_of_neg (by simp [h]), List.find?_cons_of_neg _ (by simp [hnm])]
      exact ih
    · rw [List.filter_cons_of_pos (by simp [h])]
      by_cases h2 : nv.1 = m
      · rw [List.find?_cons_of_pos _ (by simp [h2]), List.find?_cons_of_pos _ (by simp [h2])]
      · rw [List.find?_cons_of_neg _ (by simp [h2]), List.find?_cons_of_neg _ (by simp [h2])]
        exact ih

theorem findVal_updVals_other (n v m : String) (hm : m ≠ n) (vs : List (String × String)) :
    (updVals n v vs).find? (fun nv => nv.1 == m) = vs.find? (fun nv => nv.1 == m) := by
  have hnm : ¬ (n = m) := fun hc => hm hc.symm
  simp only [updVals]
  rw [List.find?_cons_of_neg _ (by simp [hnm])]
  exact findVal_filter_other n m hm vs

/-! ## Registry-level corollaries -/

theorem getKeyValues_of_keyExists (r : Registry) (p : String)
    (hk : r.keyExists p = true) : ∃ vs, r.getKeyValues p = some vs := by
  unfold Registry.keyExists at hk
  obtain ⟨x, hx, hpx⟩ := List.any_eq_true.mp hk
  have hsome : (r.keys.find? (fun kv => kv.1 == p)).isSome :=
    List.find?_isSome.mpr ⟨x, hx, hpx⟩
  obtain ⟨kv, hkv⟩ := Option.isSome_iff_exists.mp hsome
  exact ⟨kv.2, by simp [Registry.getKeyValues, hkv]⟩

theorem setValue_clean (r : Registry) (p n v : String)
    (hds : r.deniedSet = []) (hk : r.keyExists p = true) :
    r.setValue p n v = .ok { r with keys := setKs p n v r.keys } := by
  simp [Registry.setValue, hds, hk]

theorem keyExists_setKs (r : Registry) (p n v q : String) :
    ({ r with keys := setKs p n v r.keys } : Registry).keyExists q = r.keyExists q := by
  simp [Registry.keyExists, any_setKs]

theorem keyExists_delKs (r : Registry) (p n q : String) :
    ({ r with keys := delKs p n r.keys } : Registry).keyExists q = r.keyExists q := by
  simp [Registry.keyExists, any_delKs]

theorem getValue_setKs_self (r : Registry) (p n v : String) (hk : r.keyExists p = true) :
    ({ r with keys := setKs p n v r.keys } : Registry).getValue p n = .ok v := by
  obtain ⟨vs, hvs⟩ := getKeyValues_of_keyExists r p hk
  simp only [Registry.getKeyValues, Option.map_eq_some'] at hvs
  obtain ⟨kv, hkv, hkv2⟩ := hvs
  simp [Registry.getValue, Registry.getKeyValues, find?_setKs_self, hkv,
    findVal_updVals_same]

theorem getValue_setKs_other_name (r : Registry) (p n v m : String) (hm : m ≠ n) :
    ({ r with keys := setKs p n v r.keys } : Registry).getValue p m = r.getValue p m := by
  simp only [Registry.getValue, Registry.getKeyValues, find?_setKs_self]
  cases hkv : r.keys.find? (fun kv => kv.1 == p) with
  | none => simp
  | some kv => simp [findVal_updVals_other n v m hm]

theorem getValue_setKs_other_key (r : Registry) (p n v q m : String) (hq : q ≠ p) :
    ({ r with keys := setKs p n v r.keys } : Registry).getValue q m = r.getValue q m := by
  simp [Registry.getValue, Registry.getKeyValues, find?_setKs_other p n v q hq]

theorem getValue_delKs_self (r : Registry) (p n : String) :
    ({ r with keys := delKs p n r.keys } : Registry).getValue p n = .error .notFound := by
  unfold Registry.getValue Registry.getKeyValues
  rw [find?_delKs_self]
  cases hkv : r.keys.find? (fun kv => kv.1 == p) with
  | none => rfl
  | some kv =>
    simp only [Option.map_some']
    rw [findVal_filter_self]

theorem getValue_delKs_other_name (r : Registry) (p n m : String) (hm : m ≠ n) :
    ({ r with keys := delKs p n r.keys } : Registry).getValue p m = r.getValue p m := by
  simp only [Registry.getValue, Registry.getKeyValues, find?_delKs_self]
  cases hkv : r.keys.find? (fun kv => kv.1 == p) with
  | none => simp
  | some kv => simp [findVal_filter_other n m hm]

theorem getValue_delKs_other_key (r : Registry) (p n q m : String) (hq : q ≠ p) :
    ({ r with keys := delKs p n r.keys } : Registry).getValue q m = r.getValue q m := by
  simp [Registry.getValue, Registry.getKeyValues, find?_delKs_other p n q hq]

theorem getValue_none_of_any_false (r : Registry) (p n : String)
    (vs : List (String × String)) (hvs : r.getKeyValues p = some vs)
    (ha : vs.any (fun nv => nv.1 == n) = false) :
    r.getValue p n = .error .notFound := by
  have hfind : vs.find? (fun nv => nv.1 == n) = none := by
    rw [List.find?_eq_none]
    intro x hx
    intro hpx
    have hcontra : vs.any (fun nv => nv.1 == n) = true :=
      List.any_eq_true.mpr ⟨x, hx, hpx⟩
    simp [ha] at hcontra
  simp [Registry.getValue, hvs, hfind]

theorem getValue_notFound_of_no_key (r : Registry) (p n : String)
    (hk : r.keyExists p = false) : r.getValue p n = .error .notFound := by
  have hfind : r.keys.find? (fun kv => kv.1 == p) = none := by
    rw [List.find?_eq_none]
    intro x hx hpx
    have hcontra : r.keys.any (fun kv => kv.1 == p) = true :=
      List.any_eq_true.mpr ⟨x, hx, hpx⟩
    rw [Registry.keyExists] at hk
    simp [hk] at hcontra
  simp [Registry.getValue, Registry.getKeyValues, hfind]

/-! ## Entry-level helper lemmas (clean states: no denials) -/

theorem key_ok (e : CtxEntry) (r : Registry) (hdo : r.deniedOpen = [])
    (hk : r.keyExists e.pathStr = true) : e.key r = .ok () := by
  simp [CtxEntry.key, get_key, Registry.openSubkey, hk, hdo]

theorem get_key_ok (p : String) (r : Registry) (hdo : r.deniedOpen = [])
    (hk : r.keyExists p = true) : get_key p r = .ok () := by
  simp [get_key, Registry.openSubkey, hk, hdo]

theorem get_key_notFound (p : String) (r : Registry)
    (hk : r.keyExists p = false) : get_key p r = .error .notFound := by
  simp [get_key, Registry.openSubkey, hk]

theorem safe_delete_value_clean (e : CtxEntry) (val : String) (r : Registry)
    (hdo : r.deniedOpen = []) (hk : r.keyExists e.pathStr = true) :
    ∃ r1, e.safe_delete_value val r = (.ok (), r1) ∧
      r1.getValue e.pathStr val = .error .notFound ∧
      (∀ m, m ≠ val → r1.getValue e.pathStr m = r.getValue e.pathStr m) ∧
      (∀ q m, q ≠ e.pathStr → r1.getValue q m = r.getValue q m) ∧
      (∀ q, r1.keyExists q = r.keyExists q) ∧
      r1.deniedOpen = r.deniedOpen ∧ r1.deniedSet = r.deniedSet := by
  obtain ⟨vs, hvs⟩ := getKeyValues_of_keyExists r e.pathStr hk
  cases ha : vs.any (fun nv => nv.1 == val) with
  | false =>
    refine ⟨r, ?_, ?_, ?_, ?_, ?_, rfl, rfl⟩
    · simp [CtxEntry.safe_delete_value, key_ok e r hdo hk, Registry.deleteValue, hvs, ha]
    · exact getValue_none_of_any_false r e.pathStr val vs hvs ha
    · intro m _; rfl
    · intro q m _; rfl
    · intro q; rfl
  | true =>
    refine ⟨{ r with keys := delKs e.pathStr val r.keys }, ?_, ?_, ?_, ?_, ?_, rfl, rfl⟩
    · simp [CtxEntry.safe_delete_value, key_ok e r hdo hk, Registry.deleteValue, hvs, ha]
    · exact getValue_delKs_self r e.pathStr val
    · intro m hm; exact getValue_delKs_other_name r e.pathStr val m hm
    · intro q m hq; exact getValue_delKs_other_key r e.pathStr val q m hq
    · intro q; exact keyExists_delKs r e.pathStr val q

/-! ## Further helper lemmas -/

theorem data_ext (a b : String) (h : a.data = b.data) : a = b := by
  cases a
  cases b
  exact congrArg String.mk h

theorem createSubkey_keyExists_self (r : Registry) (p : String) :
    ((r.createSubkey p).1).keyExists p = true := by
  unfold Registry.createSubkey Registry.keyExists
  by_cases h : r.keys.any (fun kv => kv.1 == p)
  · simp [h]
  · simp [h, List.any_append]

theorem createSubkey_keyExists_mono (r : Registry) (p q : String)
    (hq : r.keyExists q = true) : ((r.createSubkey p).1).keyExists q = true := by
  unfold Registry.createSubkey
  by_cases h : r.keyExists p
  · simp [h, hq]
  · simp only [h]
    simp only [Bool.false_eq_true, if_neg, ite_false]
    unfold Registry.keyExists at hq ⊢
    simp [List.any_append, hq]

theorem createSubkey_deniedOpen (r : Registry) (p : String) :
    ((r.createSubkey p).1).deniedOpen = r.deniedOpen := by
  unfold Registry.createSubkey
  by_cases h : r.keyExists p <;> simp [h]

theorem createSubkey_deniedSet (r : Registry) (p : String) :
    ((r.createSubkey p).1).deniedSet = r.deniedSet := by
  unfold Registry.createSubkey
  by_cases h : r.keyExists p <;> simp [h]

theorem any_filter_self (p : String) (ks : List (String × List (String × String))) :
    (ks.filter (fun kv => kv.1 != p)).any (fun kv => kv.1 == p) = false := by
  induction ks with
  | nil => rfl
  | cons kv ks ih =>
    by_cases h : kv.1 = p
    · rw [List.filter_cons_of_neg (by simp [h])]
      exact ih
    · rw [List.filter_cons_of_pos (by simp [h]), List.any_cons]
      simp [h, ih]

theorem keyExists_filter_self (r : Registry) (p : String) :
    ({ r with keys := r.keys.filter (fun kv => kv.1 != p) } : Registry).keyExists p = false := by
  simp only [Registry.keyExists]
  exact any_filter_self p r.keys

theorem getKeyValues_setKs_other (r : Registry) (p n v q : String) (hq : q ≠ p) :
    ({ r with keys := setKs p n v r.keys } : Registry).getKeyValues q = r.getKeyValues q := by
  simp [Registry.getKeyValues, find?_setKs_other p n v q hq]

theorem encNames_append_one (xs : List String) (n : String) :
    encNames (xs ++ [n]) = encNames xs ++ (sepChars ++ n.data) := by
  induction xs with
  | nil => simp [encNames]
  | cons x xs ih => simp [encNames, ih, List.append_assoc]

theorem child_path_ne (t : ActivationType) (xs : List String) (hne : xs ≠ []) (n : String) :
    get_full_path t (xs ++ [n]) ≠ get_full_path t xs := by
  intro hcontra
  have h1 := get_full_path_data t (xs ++ [n]) (by simp)
  have h2 := get_full_path_data t xs hne
  rw [hcontra, h2] at h1
  have h3 : encNames xs = encNames (xs ++ [n]) := List.append_cancel_left h1
  rw [encNames_append_one] at h3
  have h4 := congrArg List.length h3
  simp [sepChars] at h4

theorem foldl_get_path_data (ns : List String) (p : String) :
    (ns.foldl (fun acc entry_name => acc ++ ("\\shell\\" ++ entry_name)) p).data
      = p.data ++ encNames ns := by
  induction ns generalizing p with
  | nil => simp [encNames]
  | cons n ns ih =>
    simp only [List.foldl_cons, ih, strData_append, encNames]
    have hsep : ("\\shell\\" : String).data = sepChars := by decide
    simp [hsep, sepChars, List.append_assoc]

theorem get_str_path_eq (t : ActivationType) (np : List String) (h : np ≠ []) :
    np.foldl (fun acc entry_name => acc ++ ("\\shell\\" ++ entry_name)) (get_base_path t)
      = get_full_path t np := by
  apply data_ext
  rw [foldl_get_path_data, get_full_path_data t np h]

/-! ## Attribute round-trip helper lemmas (clean states) -/

theorem icon_set_roundtrip (e : CtxEntry) (r : Registry) (i : String)
    (hdo : r.deniedOpen = []) (hds : r.deniedSet = [])
    (hk : r.keyExists e.pathStr = true) :
    (e.set_icon (some i) r).1 = .ok () ∧
    e.icon (e.set_icon (some i) r).2 = .ok (some i) := by
  have hkey := key_ok e r hdo hk
  have hset := setValue_clean r e.pathStr "Icon" i hds hk
  have hres : e.set_icon (some i) r
      = (.ok (), { r with keys := setKs e.pathStr "Icon" i r.keys }) := by
    simp [CtxEntry.set_icon, hkey, hset]
  rw [hres]
  refine ⟨rfl, ?_⟩
  have hk1 : ({ r with keys := setKs e.pathStr "Icon" i r.keys } : Registry).keyExists e.pathStr
      = true := by
    rw [keyExists_setKs]; exact hk
  have hkey1 := key_ok e { r with keys := setKs e.pathStr "Icon" i r.keys } hdo hk1
  simp [CtxEntry.icon, hkey1, getValue_setKs_self r e.pathStr "Icon" i hk, exceptToOption]

theorem icon_unset_roundtrip (e : CtxEntry) (r : Registry)
    (hdo : r.deniedOpen = []) (hk : r.keyExists e.pathStr = true) :
    (e.set_icon none r).1 = .ok () ∧
    e.icon (e.set_icon none r).2 = .ok none := by
  obtain ⟨r1, hr1, hval, _, _, hkeys, hdo1, _⟩ :=
    safe_delete_value_clean e "Icon" r hdo hk
  have hres : e.set_icon none r = (.ok (), r1) := by
    have hkey := key_ok e r hdo hk
    simp [CtxEntry.set_icon, hkey, hr1]
  rw [hres]
  refine ⟨rfl, ?_⟩
  have hkey1 := key_ok e r1 (by rw [hdo1]; exact hdo) (by rw [hkeys]; exact hk)
  simp [CtxEntry.icon, hkey1, hval, exceptToOption]

theorem position_set_roundtrip (e : CtxEntry) (r : Registry) (pos : MenuPosition)
    (hdo : r.deniedOpen = []) (hds : r.deniedSet = [])
    (hk : r.keyExists e.pathStr = true) :
    (e.set_position (some pos) r).1 = .ok () ∧
    e.position (e.set_position (some pos) r).2 = .ok (some pos) := by
  have hkey := key_ok e r hdo hk
  cases pos with
  | top =>
    have hset := setValue_clean r e.pathStr "Position" "To" hds hk
    have hset2 := setValue_clean r e.pathStr "Position" "Top" hds hk
    have hres : e.set_position (some .top) r
        = (.ok (), { r with keys := setKs e.pathStr "Position" "Top" r.keys }) := by
      simp [CtxEntry.set_position, hkey, hset2]
    rw [hres]
    refine ⟨rfl, ?_⟩
    have hk1 : ({ r with keys := setKs e.pathStr "Position" "Top" r.keys } : Registry).keyExists
        e.pathStr = true := by
      rw [keyExists_setKs]; exact hk
    have hkey1 := key_ok e { r with keys := setKs e.pathStr "Position" "Top" r.keys } hdo hk1
    simp [CtxEntry.position, hkey1, getValue_setKs_self r e.pathStr "Position" "Top" hk]
  | bottom =>
    have hset2 := setValue_clean r e.pathStr "Position" "Bottom" hds hk
    have hres : e.set_position (some .bottom) r
        = (.ok (), { r with keys := setKs e.pathStr "Position" "Bottom" r.keys }) := by
      simp [CtxEntry.set_position, hkey, hset2]
    rw [hres]
    refine ⟨rfl, ?_⟩
    have hk1 : ({ r with keys := setKs e.pathStr "Position" "Bottom" r.keys } : Registry).keyExists
        e.pathStr = true := by
      rw [keyExists_setKs]; exact hk
    have hkey1 := key_ok e { r with keys := setKs e.pathStr "Position" "Bottom" r.keys } hdo hk1
    simp [CtxEntry.position, hkey1, getValue_setKs_self r e.pathStr "Position" "Bottom" hk]

theorem position_unset_roundtrip (e : CtxEntry) (r : Registry)
    (hdo : r.deniedOpen = []) (hk : r.keyExists e.pathStr = true) :
    (e.set_position none r).1 = .ok () ∧
    e.position (e.set_position none r).2 = .ok none := by
  obtain ⟨r1, hr1, hval, _, _, hkeys, hdo1, _⟩ :=
    safe_delete_value_clean e "Position" r hdo hk
  have hres : e.set_position none r = (.ok (), r1) := by
    simp [CtxEntry.set_position, hr1]
  
  rw [hres]
  refine ⟨rfl, ?_⟩
  have hkey1 := key_ok e r1 (by rw [hdo1]; exact hdo) (by rw [hkeys]; exact hk)
  simp [CtxEntry.position, hkey1, hval]

theorem extended_set_roundtrip (e : CtxEntry) (r : Registry)
    (hdo : r.deniedOpen = []) (hds : r.deniedSet = [])
    (hk : r.keyExists e.pathStr = true) :
    (e.set_extended true r).1 = .ok () ∧
    e.extended (e.set_extended true r).2 = .ok true := by
  have hkey := key_ok e r hdo hk
  have hset := setValue_clean r e.pathStr "Extended" "" hds hk
  have hres : e.set_extended true r
      = (.ok (), { r with keys := setKs e.pathStr "Extended" "" r.keys }) := by
    simp [CtxEntry.set_extended, hkey, hset]
  rw [hres]
  refine ⟨rfl, ?_⟩
  have hk1 : ({ r with keys := setKs e.pathStr "Extended" "" r.keys } : Registry).keyExists
      e.pathStr = true := by
    rw [keyExists_setKs]; exact hk
  have hkey1 := key_ok e { r with keys := setKs e.pathStr "Extended" "" r.keys } hdo hk1
  simp [CtxEntry.extended, hkey1, getValue_setKs_self r e.pathStr "Extended" "" hk,
    exceptToOption]

theorem extended_unset_roundtrip (e : CtxEntry) (r : Registry)
    (hdo : r.deniedOpen = []) (hk : r.keyExists e.pathStr = true) :
    (e.set_extended false r).1 = .ok () ∧
    e.extended (e.set_extended false r).2 = .ok false := by
  obtain ⟨r1, hr1, hval, _, _, hkeys, hdo1, _⟩ :=
    safe_delete_value_clean e "Extended" r hdo hk
  have hres : e.set_extended false r = (.ok (), r1) := by
    simp [CtxEntry.set_extended, hr1]
  
  rw [hres]
  refine ⟨rfl, ?_⟩
  have hkey1 := key_ok e r1 (by rw [hdo1]; exact hdo) (by rw [hkeys]; exact hk)
  simp [CtxEntry.extended, hkey1, hval, exceptToOption]

theorem setValue_clean_mk (ks : List (String × List (String × String)))
    (dOp : List String) (dSet : List (String × String)) (p n v : String)
    (hds : dSet = []) (hk : ks.any (fun kv => kv.1 == p) = true) :
    (Registry.mk ks dOp dSet).setValue p n v = .ok (Registry.mk (setKs p n v ks) dOp dSet) := by
  simp [Registry.setValue, hds, Registry.keyExists, hk]

theorem keyExists_setKs_mk (ks : List (String × List (String × String)))
    (dOp : List String) (dSet : List (String × String)) (p n v q : String) :
    (Registry.mk (setKs p n v ks) dOp dSet).keyExists q = ks.any (fun kv => kv.1 == q) :=
  any_setKs p n v q ks

theorem getValue_setKs_self_mk (ks : List (String × List (String × String)))
    (dOp : List String) (dSet : List (String × String)) (p n v : String)
    (hk : ks.any (fun kv => kv.1 == p) = true) :
    (Registry.mk (setKs p n v ks) dOp dSet).getValue p n = .ok v :=
  getValue_setKs_self (Registry.mk ks dOp dSet) p n v hk

theorem getValue_setKs_other_name_mk (ks : List (String × List (String × String)))
    (dOp : List String) (dSet : List (String × String)) (p n v m : String) (hm : m ≠ n) :
    (Registry.mk (setKs p n v ks) dOp dSet).getValue p m
      = (Registry.mk ks dOp dSet).getValue p m :=
  getValue_setKs_other_name (Registry.mk ks dOp dSet) p n v m hm

theorem separator_set_roundtrip (e : CtxEntry) (r : Registry) (s : Separator)
    (hdo : r.deniedOpen = []) (hds : r.deniedSet = [])
    (hk : r.keyExists e.pathStr = true) :
    (e.set_separator (some s) r).1 = .ok () ∧
    e.separator (e.set_separator (some s) r).2 = .ok (some s) := by
  have hkey := key_ok e r hdo hk
  cases s with
  | before =>
    have hset := setValue_clean r e.pathStr "SeparatorBefore" "" hds hk
    have hk1 : (Registry.mk (setKs e.pathStr "SeparatorBefore" "" r.keys)
        r.deniedOpen r.deniedSet).keyExists e.pathStr = true := by
      rw [keyExists_setKs_mk]; exact hk
    obtain ⟨r2, hr2, hvalA, hothern, _, hkeys2, hdo2, _⟩ :=
      safe_delete_value_clean e "SeparatorAfter"
        (Registry.mk (setKs e.pathStr "SeparatorBefore" "" r.keys) r.deniedOpen r.deniedSet)
        hdo hk1
    have hres : e.set_separator (some .before) r = (.ok (), r2) := by
      simp [CtxEntry.set_separator, hkey, hset, hr2]
    rw [hres]
    refine ⟨rfl, ?_⟩
    have hkey2 := key_ok e r2 (by rw [hdo2]; exact hdo) (by rw [hkeys2]; exact hk1)
    have hB : r2.getValue e.pathStr "SeparatorBefore" = .ok "" := by
      rw [hothern "SeparatorBefore" (by decide)]
      exact getValue_setKs_self_mk r.keys r.deniedOpen r.deniedSet e.pathStr
        "SeparatorBefore" "" hk
    simp [CtxEntry.separator, hkey2, hB, hvalA]
  | after =>
    have hset := setValue_clean r e.pathStr "SeparatorAfter" "" hds hk
    have hk1 : (Registry.mk (setKs e.pathStr "SeparatorAfter" "" r.keys)
        r.deniedOpen r.deniedSet).keyExists e.pathStr = true := by
      rw [keyExists_setKs_mk]; exact hk
    obtain ⟨r2, hr2, hvalB, hothern, _, hkeys2, hdo2, _⟩ :=
      safe_delete_value_clean e "SeparatorBefore"
        (Registry.mk (setKs e.pathStr "SeparatorAfter" "" r.keys) r.deniedOpen r.deniedSet)
        hdo hk1
    have hres : e.set_separator (some .after) r = (.ok (), r2) := by
      simp [CtxEntry.set_separator, hkey, hset, hr2]
    rw [hres]
    refine ⟨rfl, ?_⟩
    have hkey2 := key_ok e r2 (by rw [hdo2]; exact hdo) (by rw [hkeys2]; exact hk1)
    have hA : r2.getValue e.pathStr "SeparatorAfter" = .ok "" := by
      rw [hothern "SeparatorAfter" (by decide)]
      exact getValue_setKs_self_mk r.keys r.deniedOpen r.deniedSet e.pathStr
        "SeparatorAfter" "" hk
    simp [CtxEntry.separator, hkey2, hA, hvalB]
  | both =>
    have hsetB := setValue_clean r e.pathStr "SeparatorBefore" "" hds hk
    have hkB : (setKs e.pathStr "SeparatorBefore" "" r.keys).any
        (fun kv => kv.1 == e.pathStr) = true := by
      rw [any_setKs]; exact hk
    have hsetA := setValue_clean_mk (setKs e.pathStr "SeparatorBefore" "" r.keys)
      r.deniedOpen r.deniedSet e.pathStr "SeparatorAfter" "" hds hkB
    have hres : e.set_separator (some .both) r
        = (.ok (), Registry.mk
            (setKs e.pathStr "SeparatorAfter" "" (setKs e.pathStr "SeparatorBefore" "" r.keys))
            r.deniedOpen r.deniedSet) := by
      simp [CtxEntry.set_separator, hkey, hsetB, hsetA]
    rw [hres]
    refine ⟨rfl, ?_⟩
    have hk2 : (Registry.mk
        (setKs e.pathStr "SeparatorAfter" "" (setKs e.pathStr "SeparatorBefore" "" r.keys))
        r.deniedOpen r.deniedSet).keyExists e.pathStr = true := by
      rw [keyExists_setKs_mk]; exact hkB
    have hkey2 := key_ok e (Registry.mk
      (setKs e.pathStr "SeparatorAfter" "" (setKs e.pathStr "SeparatorBefore" "" r.keys))
      r.deniedOpen r.deniedSet) (by exact hdo) hk2
    have hB : (Registry.mk
        (setKs e.pathStr "SeparatorAfter" "" (setKs e.pathStr "SeparatorBefore" "" r.keys))
        r.deniedOpen r.deniedSet).getValue e.pathStr "SeparatorBefore" = .ok "" := by
      rw [getValue_setKs_other_name_mk _ _ _ _ _ _ _ (by decide)]
      exact getValue_setKs_self_mk r.keys r.deniedOpen r.deniedSet e.pathStr
        "SeparatorBefore" "" hk
    have hA : (Registry.mk
        (setKs e.pathStr "SeparatorAfter" "" (setKs e.pathStr "SeparatorBefore" "" r.keys))
        r.deniedOpen r.deniedSet).getValue e.pathStr "SeparatorAfter" = .ok "" :=
      getValue_setKs_self_mk _ r.deniedOpen r.deniedSet e.pathStr "SeparatorAfter" "" hkB
    simp [CtxEntry.separator, hkey2, hB, hA]

theorem separator_unset_roundtrip (e : CtxEntry) (r : Registry)
    (hdo : r.deniedOpen = []) (hk : r.keyExists e.pathStr = true) :
    (e.set_separator none r).1 = .ok () ∧
    e.separator (e.set_separator none r).2 = .ok none := by
  have hkey := key_ok e r hdo hk
  obtain ⟨r1, hr1, hvalB1, _, _, hkeys1, hdo1, _⟩ :=
    safe_delete_value_clean e "SeparatorBefore" r hdo hk
  obtain ⟨r2, hr2, hvalA2, hothern2, _, hkeys2, hdo2, _⟩ :=
    safe_delete_value_clean e "SeparatorAfter" r1 (by rw [hdo1]; exact hdo)
      (by rw [hkeys1]; exact hk)
  have hres : e.set_separator none r = (.ok (), r2) := by
    simp [CtxEntry.set_separator, hkey, hr1, hr2]
  rw [hres]
  refine ⟨rfl, ?_⟩
  have hkey2 := key_ok e r2 (by rw [hdo2, hdo1]; exact hdo)
    (by rw [hkeys2, hkeys1]; exact hk)
  have hB : r2.getValue e.pathStr "SeparatorBefore" = .error .notFound := by
    rw [hothern2 "SeparatorBefore" (by decide)]
    exact hvalB1
  simp [CtxEntry.separator, hkey2, hB, hvalA2]

theorem command_set_roundtrip (e : CtxEntry) (r : Registry) (c : String)
    (hdo : r.deniedOpen = []) (hds : r.deniedSet = [])
    (hk : r.keyExists e.pathStr = true) :
    (e.set_command (some c) r).1 = .ok () ∧
    e.command (e.set_command (some c) r).2 = .ok (some c) := by
  have hkey := key_ok e r hdo hk
  by_cases hex : r.keyExists (e.pathStr ++ "\\command") = true
  · have hcs : r.createSubkey (e.pathStr ++ "\\command") = (r, .openedExistingKey) := by
      simp [Registry.createSubkey, hex]
    have hset := setValue_clean r (e.pathStr ++ "\\command") "" c hds hex
    have hres : e.set_command (some c) r
        = (.ok (), Registry.mk (setKs (e.pathStr ++ "\\command") "" c r.keys)
            r.deniedOpen r.deniedSet) := by
      simp [CtxEntry.set_command, hkey, hcs, hset]
    rw [hres]
    refine ⟨rfl, ?_⟩
    have hk2 : (Registry.mk (setKs (e.pathStr ++ "\\command") "" c r.keys)
        r.deniedOpen r.deniedSet).keyExists (e.pathStr ++ "\\command") = true := by
      rw [keyExists_setKs_mk]; exact hex
    have hgk := get_key_ok (e.pathStr ++ "\\command")
      (Registry.mk (setKs (e.pathStr ++ "\\command") "" c r.keys) r.deniedOpen r.deniedSet)
      (by exact hdo) hk2
    have hgv := getValue_setKs_self_mk r.keys r.deniedOpen r.deniedSet
      (e.pathStr ++ "\\command") "" c hex
    simp [CtxEntry.command, hgk, hgv, exceptToOption]
  · have hexf : r.keyExists (e.pathStr ++ "\\command") = false := by
      simpa using hex
    have hcs : r.createSubkey (e.pathStr ++ "\\command")
        = (Registry.mk (r.keys ++ [(e.pathStr ++ "\\command", [])]) r.deniedOpen r.deniedSet,
           .createdNewKey) := by
      simp [Registry.createSubkey, hexf]
    have hkA : (r.keys ++ [(e.pathStr ++ "\\command", [])]).any
        (fun kv => kv.1 == (e.pathStr ++ "\\command")) = true := by
      simp [List.any_append]
    have hset := setValue_clean_mk (r.keys ++ [(e.pathStr ++ "\\command", [])])
      r.deniedOpen r.deniedSet (e.pathStr ++ "\\command") "" c hds hkA
    have hres : e.set_command (some c) r
        = (.ok (), Registry.mk
            (setKs (e.pathStr ++ "\\command") "" c (r.keys ++ [(e.pathStr ++ "\\command", [])]))
            r.deniedOpen r.deniedSet) := by
      simp [CtxEntry.set_command, hkey, hcs, hset]
    rw [hres]
    refine ⟨rfl, ?_⟩
    have hk2 : (Registry.mk
        (setKs (e.pathStr ++ "\\command") "" c (r.keys ++ [(e.pathStr ++ "\\command", [])]))
        r.deniedOpen r.deniedSet).keyExists (e.pathStr ++ "\\command") = true := by
      rw [keyExists_setKs_mk]; exact hkA
    have hgk := get_key_ok (e.pathStr ++ "\\command") (Registry.mk
        (setKs (e.pathStr ++ "\\command") "" c (r.keys ++ [(e.pathStr ++ "\\command", [])]))
        r.deniedOpen r.deniedSet) (by exact hdo) hk2
    have hgv := getValue_setKs_self_mk (r.keys ++ [(e.pathStr ++ "\\command", [])])
      r.deniedOpen r.deniedSet (e.pathStr ++ "\\command") "" c hkA
    simp [CtxEntry.command, hgk, hgv, exceptToOption]

theorem command_unset_then_get (e : CtxEntry) (r : Registry)
    (hdo : r.deniedOpen = []) (hk : r.keyExists e.pathStr = true)
    (hnc : r.hasChildKeys (e.pathStr ++ "\\command") = false) :
    (e.set_command none r).1 = .ok () ∧
    e.command (e.set_command none r).2 = .err .notFound := by
  have hkey := key_ok e r hdo hk
  by_cases hex : r.keyExists (e.pathStr ++ "\\command") = true
  · have hdel : r.deleteSubkey (e.pathStr ++ "\\command")
        = .ok (Registry.mk (r.keys.filter (fun kv => kv.1 != e.pathStr ++ "\\command"))
            r.deniedOpen r.deniedSet) := by
      simp [Registry.deleteSubkey, hex, hnc]
    have hres : e.set_command none r
        = (.ok (), Registry.mk (r.keys.filter (fun kv => kv.1 != e.pathStr ++ "\\command"))
            r.deniedOpen r.deniedSet) := by
      simp [CtxEntry.set_command, hkey, hdel]
    rw [hres]
    refine ⟨rfl, ?_⟩
    have hkf : (Registry.mk (r.keys.filter (fun kv => kv.1 != e.pathStr ++ "\\command"))
        r.deniedOpen r.deniedSet).keyExists (e.pathStr ++ "\\command") = false :=
      keyExists_filter_self r (e.pathStr ++ "\\command")
    simp [CtxEntry.command, get_key_notFound _ _ hkf]
  · have hexf : r.keyExists (e.pathStr ++ "\\command") = false := by
      simpa using hex
    have hdel : r.deleteSubkey (e.pathStr ++ "\\command") = .error .notFound := by
      simp [Registry.deleteSubkey, hexf]
    have hres : e.set_command none r = (.ok (), r) := by
      simp [CtxEntry.set_command, hkey, hdel]
    rw [hres]
    exact ⟨rfl, by simp [CtxEntry.command, get_key_notFound _ _ hexf]⟩

/-! ## Shape lemmas for the constructors -/

theorem get_some_shape (np : List String) (t : ActivationType) (r : Registry)
    (e : CtxEntry) (h : CtxEntry.get np t r = some e) :
    e = { path := np, entry_type := t } ∧ np ≠ [] := by
  unfold CtxEntry.get at h
  by_cases h0 : np.length = 0
  · rw [if_pos h0] at h
    cases h
  · rw [if_neg h0] at h
    simp only [] at h
    have hne : np ≠ [] := by
      intro hcontra
      exact h0 (by simp [hcontra])
    refine ⟨?_, hne⟩
    split at h
    · cases h
    all_goals
      simp only [Option.some.injEq] at h
      exact h.symm

theorem get_empty_none (t : ActivationType) (r : Registry) :
    CtxEntry.get [] t r = none := by
  simp [CtxEntry.get]

theorem get_of_keyExists (np : List String) (t : ActivationType) (r : Registry)
    (hne : np ≠ []) (hk : r.keyExists (get_full_path t np) = true) :
    CtxEntry.get np t r = some { path := np, entry_type := t } := by
  unfold CtxEntry.get
  have h0 : ¬ (np.length = 0) := by
    intro hcontra
    exact hne (List.length_eq_zero.mp hcontra)
  rw [if_neg h0]
  simp only []
  rw [get_str_path_eq t np hne]
  unfold get_key Registry.openSubkey
  rw [hk]
  cases hcont : r.deniedOpen.contains (get_full_path t np) with
  | false => simp [hcont]
  | true => simp [hcont]

theorem get_of_keyMissing (np : List String) (t : ActivationType) (r : Registry)
    (hne : np ≠ []) (hk : r.keyExists (get_full_path t np) = false) :
    CtxEntry.get np t r = none := by
  unfold CtxEntry.get
  have h0 : ¬ (np.length = 0) := by
    intro hcontra
    exact hne (List.length_eq_zero.mp hcontra)
  rw [if_neg h0]
  simp only []
  rw [get_str_path_eq t np hne, get_key_notFound _ _ hk]

theorem create_ok_shape (np : List String) (t : ActivationType) (o : EntryOptions)
    (r : Registry) (e : CtxEntry) (h : (CtxEntry.create np t o r).1 = .ok e) :
    e = { path := np, entry_type := t } := by
  unfold CtxEntry.create at h
  simp only [] at h
  split at h
  · cases h
  · split at h
    · split at h
      · split at h
        · split at h
          · simp only [Outcome.ok.injEq] at h
            exact h.symm
          · cases h
          · cases h
        · cases h
        · cases h
      · cases h
      · cases h
    · cases h
    · cases h

theorem new_child_ok_shape (e : CtxEntry) (name : String) (o : EntryOptions)
    (r : Registry) (c : CtxEntry) (h : (e.new_child_with_options name o r).1 = .ok c) :
    c = { path := e.path ++ [name], entry_type := e.entry_type } := by
  unfold CtxEntry.new_child_with_options at h
  split at h
  · cases h
  · split at h
    · cases h
    · exact create_ok_shape _ _ _ _ _ h

theorem child_ok_shape (e : CtxEntry) (name : String) (r : Registry) (c : CtxEntry)
    (h : e.child name r = .ok (some c)) :
    c = { path := e.path ++ [name], entry_type := e.entry_type } := by
  unfold CtxEntry.child at h
  simp only [] at h
  split at h
  · simp only [Except.ok.injEq, Option.some.injEq] at h
    exact h.symm
  · simp at h
  · cases h

theorem childrenAux_ok_mem (e : CtxEntry) (r : Registry) :
    ∀ (ns : List String) (acc l : List CtxEntry),
      childrenAux e r ns acc = .ok l →
      ∀ c ∈ l, c ∈ acc ∨ ∃ n, e.child n r = .ok (some c) := by
  intro ns
  induction ns with
  | nil =>
    intro acc l h c hc
    unfold childrenAux at h
    simp only [Outcome.ok.injEq] at h
    exact Or.inl (h ▸ hc)
  | cons n ns ih =>
    intro acc l h c hc
    unfold childrenAux at h
    split at h
    · rename_i c' hc'
      rcases ih (acc ++ [c']) l h c hc with hmem | hex
      · rcases List.mem_append.mp hmem with hacc | hcons
        · exact Or.inl hacc
        · right
          refine ⟨n, ?_⟩
          have : c = c' := by simpa using hcons
          rw [this]
          exact hc'
      · exact Or.inr hex
    · cases h

theorem children_ok_shapes (e : CtxEntry) (r : Registry) (l : List CtxEntry)
    (h : e.children r = .ok l) :
    ∀ c ∈ l, ∃ n, c = { path := e.path ++ [n], entry_type := e.entry_type } := by
  unfold CtxEntry.children at h
  split at h
  · cases h
  · intro c hc
    rcases childrenAux_ok_mem e r _ [] l h c hc with hmem | ⟨n, hn⟩
    · cases hmem
    · exact ⟨n, child_ok_shape e n r c hn⟩

theorem get_all_aux_mem (t : ActivationType) (r : Registry) :
    ∀ (ns : List String) (acc : List (String × CtxEntry)) (n : String) (ent : CtxEntry),
      (n, ent) ∈ get_all_aux t r ns acc →
      (n, ent) ∈ acc ∨ CtxEntry.get [n] t r = some ent := by
  intro ns
  induction ns with
  | nil =>
    intro acc n ent h
    exact Or.inl h
  | cons m ms ih =>
    intro acc n ent h
    unfold get_all_aux at h
    split at h
    · rename_i entry hentry
      rcases ih (acc ++ [(m, entry)]) n ent h with hmem | hget
      · rcases List.mem_append.mp hmem with hacc | hcons
        · exact Or.inl hacc
        · right
          have hp : n = m ∧ ent = entry := by simpa using hcons
          rw [hp.1, hp.2]
          exact hentry
      · exact Or.inr hget
    · exact ih acc n ent h

theorem name_no_panic (e : CtxEntry) (r : Registry) (hne : e.path ≠ []) :
    e.name r ≠ .panic := by
  unfold CtxEntry.name
  cases hkey : e.key r with
  | error er => simp
  | ok _ =>
    cases hl : e.path.getLast? with
    | none =>
      exact absurd (List.getLast?_eq_none_iff.mp hl) hne
    | some n => simp

/-! ## Claim theorems -/

/-- C1 (counterexample): two distinct non-empty name paths collide on the
same full path string under the same context, because a name may itself
contain the separator sequence. -/
theorem fullPath_collision_backslash :
    (["a\\shell\\b"] : List String) ≠ ["a", "b"] ∧
    get_full_path ActivationType.folder ["a\\shell\\b"]
      = get_full_path ActivationType.folder ["a", "b"] :=
  ⟨by decide, by decide⟩

/-- C1: `get_full_path` is deterministic, and for non-empty name paths whose
names are backslash-free it is injective in the name path under a fixed
activation context. -/
theorem fullPath_deterministic_injective (t : ActivationType) (np1 np2 : List String)
    (h1 : np1 ≠ []) (h2 : np2 ≠ [])
    (hb1 : ∀ n ∈ np1, noBackslash n) (hb2 : ∀ n ∈ np2, noBackslash n) :
    get_full_path t np1 = get_full_path t np1 ∧
    (get_full_path t np1 = get_full_path t np2 → np1 = np2) := by
  refine ⟨rfl, fun h => ?_⟩
  have hd : (get_full_path t np1).data = (get_full_path t np2).data := by rw [h]
  rw [get_full_path_data t np1 h1, get_full_path_data t np2 h2] at hd
  exact encNames_injective np1 np2 hb1 hb2 (List.append_cancel_left hd)

/-- C1 (witness): the determinism-and-injectivity theorem at concrete inputs. -/
theorem fullPath_deterministic_injective_witness :
    get_full_path ActivationType.folder ["a", "b"]
      = get_full_path ActivationType.folder ["a", "b"] ∧
    (get_full_path ActivationType.folder ["a", "b"]
        = get_full_path ActivationType.folder ["a", "c"]
      → (["a", "b"] : List String) = ["a", "c"]) :=
  fullPath_deterministic_injective ActivationType.folder ["a", "b"] ["a", "c"]
    (by decide) (by decide) (by decide) (by decide)

/-- C2 (counterexample): with the store location present but its open
permission-denied, `get` does not propagate the failure as an error — it
still returns a handle. -/
theorem get_swallows_permissionDenied :
    regDeniedX.openSubkey "Directory\\shell\\X" = .error .permissionDenied ∧
    CtxEntry.get ["X"] .folder regDeniedX
      = some { path := ["X"], entry_type := .folder } :=
  ⟨by decide, by decide⟩

/-- C2: for non-empty name paths, `get` returns absence exactly when the
store location is missing, and returns a handle bound to that name path and
context whenever the location exists — including when opening it fails with
a non-not-found error such as permission denied (no error is propagated,
the return type has no error channel). -/
theorem get_absence_and_handle (np : List String) (t : ActivationType) (r : Registry)
    (h : np ≠ []) :
    (r.keyExists (get_full_path t np) = false → CtxEntry.get np t r = none) ∧
    (r.keyExists (get_full_path t np) = true →
      CtxEntry.get np t r = some { path := np, entry_type := t }) :=
  ⟨fun hk => get_of_keyMissing np t r h hk, fun hk => get_of_keyExists np t r h hk⟩

/-- C2 (witness): lookup of an existing and of a missing entry. -/
theorem get_absence_and_handle_witness :
    CtxEntry.get ["X"] .folder regFolderX
      = some { path := ["X"], entry_type := .folder } ∧
    CtxEntry.get ["Y"] .folder regFolderX = none :=
  ⟨(get_absence_and_handle ["X"] .folder regFolderX (by decide)).2 (by decide),
   (get_absence_and_handle ["Y"] .folder regFolderX (by decide)).1 (by decide)⟩

/-- C3: creating over an already-existing store location fails with
already-exists via the creation disposition and leaves the whole store — in
particular the pre-existing entry's attributes — unchanged; the same holds
for `new_with_options` and `new`, and `new_child_with_options` on an
existing child location fails the same way while leaving the pre-existing
child's values untouched (only the parent's subcommands marker is written). -/
theorem create_alreadyExists_preserves_store (np : List String) (t : ActivationType)
    (opts : EntryOptions) (r : Registry) (name : String)
    (hk : r.keyExists (get_full_path t np) = true)
    (hk1 : r.keyExists (get_full_path t [name]) = true) :
    CtxEntry.create np t opts r = (.err .alreadyExists, r) ∧
    CtxEntry.new_with_options name t opts r = (.err .alreadyExists, r) ∧
    CtxEntry.new name t r = (.err .alreadyExists, r) ∧
    (∀ (e : CtxEntry) (cname : String),
      e.path ≠ [] → r.deniedOpen = [] → r.deniedSet = [] →
      r.keyExists e.pathStr = true →
      r.keyExists (get_full_path e.entry_type (e.path ++ [cname])) = true →
      (e.new_child_with_options cname opts r).1 = .err .alreadyExists ∧
      ((e.new_child_with_options cname opts r).2).getKeyValues
          (get_full_path e.entry_type (e.path ++ [cname]))
        = r.getKeyValues (get_full_path e.entry_type (e.path ++ [cname]))) := by
  have hgen : ∀ (np' : List String) (o : EntryOptions),
      r.keyExists (get_full_path t np') = true →
      CtxEntry.create np' t o r = (.err .alreadyExists, r) := by
    intro np' o hnp
    unfold CtxEntry.create
    simp only []
    have hcs : r.createSubkey (get_full_path t np') = (r, .openedExistingKey) := by
      simp [Registry.createSubkey, hnp]
    rw [hcs]
    simp
  refine ⟨hgen np opts hk, hgen [name] opts hk1, hgen [name] _ hk1, ?_⟩
  intro e cname hne hdo hds hke hkc
  have hkey := key_ok e r hdo hke
  have hset := setValue_clean r e.pathStr "Subcommands" "" hds hke
  have hkc1 : (Registry.mk (setKs e.pathStr "Subcommands" "" r.keys)
      r.deniedOpen r.deniedSet).keyExists
      (get_full_path e.entry_type (e.path ++ [cname])) = true := by
    rw [keyExists_setKs_mk]; exact hkc
  have hcreate : CtxEntry.create (e.path ++ [cname]) e.entry_type opts
      (Registry.mk (setKs e.pathStr "Subcommands" "" r.keys) r.deniedOpen r.deniedSet)
      = (.err .alreadyExists,
         Registry.mk (setKs e.pathStr "Subcommands" "" r.keys) r.deniedOpen r.deniedSet) := by
    unfold CtxEntry.create
    simp only []
    have hcs : (Registry.mk (setKs e.pathStr "Subcommands" "" r.keys)
        r.deniedOpen r.deniedSet).createSubkey
        (get_full_path e.entry_type (e.path ++ [cname]))
        = (Registry.mk (setKs e.pathStr "Subcommands" "" r.keys) r.deniedOpen r.deniedSet,
           .openedExistingKey) := by
      simp [Registry.createSubkey, hkc1]
    rw [hcs]
    simp
  have hres : e.new_child_with_options cname opts r
      = (.err .alreadyExists,
         Registry.mk (setKs e.pathStr "Subcommands" "" r.keys) r.deniedOpen r.deniedSet) := by
    simp [CtxEntry.new_child_with_options, hkey, hset, hcreate]
  rw [hres]
  have hne2 : get_full_path e.entry_type (e.path ++ [cname]) ≠ e.pathStr :=
    child_path_ne e.entry_type e.path hne cname
  exact ⟨rfl, getKeyValues_setKs_other r e.pathStr "Subcommands" "" _ hne2⟩

/-- C3 (witness): creation over the existing entry `X` and over the existing
child `C` of `P`. -/
theorem create_alreadyExists_preserves_store_witness :
    CtxEntry.create ["X"] .folder optsFull regFolderX = (.err .alreadyExists, regFolderX) ∧
    (CtxEntry.new_child_with_options entryP "C" optsFull regParentChild).1
      = .err .alreadyExists := by
  have h := create_alreadyExists_preserves_store ["X"] .folder optsFull regFolderX "X"
    (by decide) (by decide)
  have h2 := create_alreadyExists_preserves_store ["P"] .folder optsFull regParentChild "P"
    (by decide) (by decide)
  exact ⟨h.1, (h2.2.2.2 entryP "C" (by decide) (by decide) (by decide) (by decide)
    (by decide)).1⟩

/-- C4 (counterexample): on an existing entry with no command container,
setting the command to unset succeeds, but reading the command back yields
a not-found error instead of the absence the claim requires. -/
theorem command_unset_roundtrip_fails :
    (CtxEntry.set_command entryX none regFolderX).1 = .ok () ∧
    CtxEntry.command entryX (CtxEntry.set_command entryX none regFolderX).2
      = .err .notFound ∧
    CtxEntry.command entryX (CtxEntry.set_command entryX none regFolderX).2
      ≠ .ok none :=
  ⟨by decide, by decide, by decide⟩

/-- C4: set-then-get round trips on an existing entry over a store with no
denials: icon, position (both variants), extended and separator (all three
variants, and unset) round trip exactly, and the command round trips when
set to a value; however unsetting the command and reading it back yields a
not-found error, not absence, when the node ends up without a nested
command container. -/
theorem attribute_roundtrip (e : CtxEntry) (r : Registry)
    (hdo : r.deniedOpen = []) (hds : r.deniedSet = [])
    (hk : r.keyExists e.pathStr = true)
    (hnc : r.hasChildKeys (e.pathStr ++ "\\command") = false) :
    (∀ i, (e.set_icon (some i) r).1 = .ok () ∧
      e.icon (e.set_icon (some i) r).2 = .ok (some i)) ∧
    ((e.set_icon none r).1 = .ok () ∧ e.icon (e.set_icon none r).2 = .ok none) ∧
    (∀ pos, (e.set_position (some pos) r).1 = .ok () ∧
      e.position (e.set_position (some pos) r).2 = .ok (some pos)) ∧
    ((e.set_position none r).1 = .ok () ∧
      e.position (e.set_position none r).2 = .ok none) ∧
    ((e.set_extended true r).1 = .ok () ∧
      e.extended (e.set_extended true r).2 = .ok true) ∧
    ((e.set_extended false r).1 = .ok () ∧
      e.extended (e.set_extended false r).2 = .ok false) ∧
    (∀ s, (e.set_separator (some s) r).1 = .ok () ∧
      e.separator (e.set_separator (some s) r).2 = .ok (some s)) ∧
    ((e.set_separator none r).1 = .ok () ∧
      e.separator (e.set_separator none r).2 = .ok none) ∧
    (∀ c, (e.set_command (some c) r).1 = .ok () ∧
      e.command (e.set_command (some c) r).2 = .ok (some c)) ∧
    ((e.set_command none r).1 = .ok () ∧
      e.command (e.set_command none r).2 = .err .notFound) :=
  ⟨fun i => icon_set_roundtrip e r i hdo hds hk,
   icon_unset_roundtrip e r hdo hk,
   fun pos => position_set_roundtrip e r pos hdo hds hk,
   position_unset_roundtrip e r hdo hk,
   extended_set_roundtrip e r hdo hds hk,
   extended_unset_roundtrip e r hdo hk,
   fun s => separator_set_roundtrip e r s hdo hds hk,
   separator_unset_roundtrip e r hdo hk,
   fun c => command_set_roundtrip e r c hdo hds hk,
   command_unset_then_get e r hdo hk hnc⟩

/-- C4 (witness): each round trip evaluated on the concrete entry `X`. -/
theorem attribute_roundtrip_witness :
    CtxEntry.icon entryX (CtxEntry.set_icon entryX (some "ico") regFolderX).2
      = .ok (some "ico") ∧
    CtxEntry.position entryX (CtxEntry.set_position entryX (some .bottom) regFolderX).2
      = .ok (some .bottom) ∧
    CtxEntry.extended entryX (CtxEntry.set_extended entryX true regFolderX).2 = .ok true ∧
    CtxEntry.separator entryX (CtxEntry.set_separator entryX (some .both) regFolderX).2
      = .ok (some .both) ∧
    CtxEntry.command entryX (CtxEntry.set_command entryX (some "run") regFolderX).2
      = .ok (some "run") := by
  have h := attribute_roundtrip entryX regFolderX (by decide) (by decide) (by decide)
    (by decide)
  exact ⟨(h.1 "ico").2, (h.2.2.1 .bottom).2, h.2.2.2.2.1.2,
    (h.2.2.2.2.2.2.1 .both).2, (h.2.2.2.2.2.2.2.2.1 "run").2⟩

/-- C5 (counterexample): the command getter on an existing node whose
command attribute is unset returns a not-found error, not successful
absence. -/
theorem command_getter_errors_when_unset :
    regFolderX.keyExists entryX.pathStr = true ∧
    CtxEntry.command entryX regFolderX = .err .notFound ∧
    CtxEntry.command entryX regFolderX ≠ .ok none :=
  ⟨by decide, by decide, by decide⟩

/-- C5: whenever the nested command container's store location is absent —
both when the command attribute is unset on an existing node and when the
node's backing location is gone — the command getter surfaces a not-found
error to the caller rather than a successful absence. -/
theorem command_getter_notFound (e : CtxEntry) (r : Registry)
    (h : r.keyExists (e.pathStr ++ "\\command") = false) :
    e.command r = .err .notFound := by
  simp [CtxEntry.command, get_key_notFound _ _ h]

/-- C5 (witness): the getter on a handle whose backing node is gone. -/
theorem command_getter_notFound_witness :
    CtxEntry.command entryX regBase = .err .notFound :=
  command_getter_notFound entryX regBase (by decide)

/-- C6: on a fresh creation `create` applies the initial attributes in the
source order command, icon, position, extended (the separator option is not
applied): on full success all four read back; when the icon write is denied
the command is already applied while position and extended are not; when
the position write is denied command and icon are applied but extended is
not; when the extended write is denied command, icon and position are all
applied — and in every failure case the created entry remains in the store
and the error is surfaced to the caller. -/
theorem create_applies_attributes_in_order :
    ((CtxEntry.create ["X"] .folder optsFull regBase).1 = .ok entryX ∧
     CtxEntry.command entryX (CtxEntry.create ["X"] .folder optsFull regBase).2
       = .ok (some "cmd /s /k pushd %V") ∧
     CtxEntry.icon entryX (CtxEntry.create ["X"] .folder optsFull regBase).2
       = .ok (some "cmd.exe") ∧
     CtxEntry.position entryX (CtxEntry.create ["X"] .folder optsFull regBase).2
       = .ok (some .top) ∧
     CtxEntry.extended entryX (CtxEntry.create ["X"] .folder optsFull regBase).2
       = .ok true ∧
     CtxEntry.separator entryX (CtxEntry.create ["X"] .folder optsFull regBase).2
       = .ok none) ∧
    ((CtxEntry.create ["X"] .folder optsFull regDenyIcon).1 = .err .permissionDenied ∧
     ((CtxEntry.create ["X"] .folder optsFull regDenyIcon).2).keyExists
       "Directory\\shell\\X" = true ∧
     CtxEntry.command entryX (CtxEntry.create ["X"] .folder optsFull regDenyIcon).2
       = .ok (some "cmd /s /k pushd %V") ∧
     ((CtxEntry.create ["X"] .folder optsFull regDenyIcon).2).getValue
       "Directory\\shell\\X" "Icon" = .error .notFound ∧
     ((CtxEntry.create ["X"] .folder optsFull regDenyIcon).2).getValue
       "Directory\\shell\\X" "Position" = .error .notFound ∧
     ((CtxEntry.create ["X"] .folder optsFull regDenyIcon).2).getValue
       "Directory\\shell\\X" "Extended" = .error .notFound) ∧
    ((CtxEntry.create ["X"] .folder optsFull regDenyPosition).1 = .err .permissionDenied ∧
     ((CtxEntry.create ["X"] .folder optsFull regDenyPosition).2).getValue
       "Directory\\shell\\X" "Icon" = .ok "cmd.exe" ∧
     ((CtxEntry.create ["X"] .folder optsFull regDenyPosition).2).getValue
       "Directory\\shell\\X" "Extended" = .error .notFound) ∧
    ((CtxEntry.create ["X"] .folder optsFull regDenyExtended).1 = .err .permissionDenied ∧
     ((CtxEntry.create ["X"] .folder optsFull regDenyExtended).2).getValue
       "Directory\\shell\\X" "Position" = .ok "Top" ∧
     ((CtxEntry.create ["X"] .folder optsFull regDenyExtended).2).keyExists
       "Directory\\shell\\X" = true) := by
  decide

/-- C7: for a non-empty new name on an entry whose key and parent container
open successfully, `rename` invokes the store rename of the current leaf
segment under the parent's path, and updates the in-memory name path to end
in the new name regardless of whether that store call succeeded or failed;
the store itself changes only when the rename succeeded, and the store
call's result is returned verbatim. -/
theorem rename_updates_namePath_regardless (e : CtxEntry) (new_name : String)
    (r : Registry) (hlen : ¬ new_name.length = 0) (hne : e.path ≠ [])
    (hkey : e.key r = .ok ())
    (hparent : r.openSubkey (get_full_path e.entry_type e.path.dropLast) = .ok ()) :
    (e.rename new_name r).2.1.path = e.path.dropLast ++ [new_name] ∧
    e.rename new_name r
      = (match r.renameSubkey (get_full_path e.entry_type e.path.dropLast)
            (e.path.getLast hne) new_name with
         | .ok r1 => (.ok (), { e with path := e.path.dropLast ++ [new_name] }, r1)
         | .error er => (.err er, { e with path := e.path.dropLast ++ [new_name] }, r)) := by
  have hname : e.name r = .ok (e.path.getLast hne) := by
    unfold CtxEntry.name
    rw [hkey, List.getLast?_eq_getLast e.path hne]
  have hres : e.rename new_name r
      = (match r.renameSubkey (get_full_path e.entry_type e.path.dropLast)
            (e.path.getLast hne) new_name with
         | .ok r1 => (.ok (), { e with path := e.path.dropLast ++ [new_name] }, r1)
         | .error er => (.err er, { e with path := e.path.dropLast ++ [new_name] }, r)) := by
    unfold CtxEntry.rename
    rw [if_neg hlen, hname]
    simp only []
    rw [hparent]
  refine ⟨?_, hres⟩
  rw [hres]
  cases r.renameSubkey (get_full_path e.entry_type e.path.dropLast)
      (e.path.getLast hne) new_name with
  | ok r1 => rfl
  | error er => rfl

/-- C7 (witness): renaming entry `P` to the already-taken name `Q` fails at
the store, yet the handle's in-memory name path now ends in `Q`. -/
theorem rename_updates_namePath_regardless_witness :
    (CtxEntry.rename entryP "Q" regPQ).2.1.path = ["Q"] ∧
    (CtxEntry.rename entryP "Q" regPQ).1 = .err .alreadyExists := by
  have h := rename_updates_namePath_regardless entryP "Q" regPQ (by decide) (by decide)
    (by decide) (by decide)
  refine ⟨h.1, ?_⟩
  rw [h.2]
  decide

/-- C8: renaming to the empty name fails with invalid-input, runs no store
operation, and leaves both the store and the in-memory name path unchanged. -/
theorem rename_empty_invalidInput (e : CtxEntry) (r : Registry) :
    e.rename "" r = (.err .invalidInput, e, r) := by
  unfold CtxEntry.rename
  rfl

/-- C9 (code bug): with a real child present (in the layout produced by
`new_child`), `children` enumerates the entry key's own sub-keys — which are
the `shell` container, not the child names — and double-unwraps each `child`
lookup, so it panics rather than returning the children or surfacing a store
error as its result; the child `C` itself is resolvable via `child`. -/
theorem children_panics_with_real_child :
    CtxEntry.child entryP "C" regParentChild
      = .ok (some { path := ["P", "C"], entry_type := .folder }) ∧
    regParentChild.enumKeys entryP.pathStr = ["shell"] ∧
    CtxEntry.children entryP regParentChild = .panic :=
  ⟨by decide, by decide, by decide⟩

/-- C10: every handle produced by a public constructor — `get` (which
returns absence on the empty name path), `new_with_options`/`new`,
`new_child_with_options`/`new_child`, `child`, `parent`, `children`,
`get_all_of_type` — carries a non-empty in-memory name path, and `name` on
any handle with a non-empty path never panics on its last-element access. -/
theorem constructors_nonempty_namePath :
    (∀ (np : List String) (t : ActivationType) (r : Registry) (e : CtxEntry),
      CtxEntry.get np t r = some e → e.path = np ∧ e.path ≠ []) ∧
    (∀ (t : ActivationType) (r : Registry), CtxEntry.get [] t r = none) ∧
    (∀ (name : String) (t : ActivationType) (o : EntryOptions) (r : Registry)
      (e : CtxEntry),
      (CtxEntry.new_with_options name t o r).1 = .ok e →
        e.path = [name] ∧ e.path ≠ []) ∧
    (∀ (e : CtxEntry) (name : String) (o : EntryOptions) (r : Registry) (c : CtxEntry),
      (e.new_child_with_options name o r).1 = .ok c →
        c.path = e.path ++ [name] ∧ c.path ≠ []) ∧
    (∀ (e : CtxEntry) (name : String) (r : Registry) (c : CtxEntry),
      e.child name r = .ok (some c) → c.path = e.path ++ [name] ∧ c.path ≠ []) ∧
    (∀ (e : CtxEntry) (r : Registry) (p : CtxEntry), e.parent r = some p → p.path ≠ []) ∧
    (∀ (e : CtxEntry) (r : Registry) (l : List CtxEntry),
      e.children r = .ok l → ∀ c ∈ l, c.path ≠ []) ∧
    (∀ (t : ActivationType) (r : Registry) (n : String) (ent : CtxEntry),
      (n, ent) ∈ CtxEntry.get_all_of_type t r → ent.path = [n] ∧ ent.path ≠ []) ∧
    (∀ (e : CtxEntry) (r : Registry), e.path ≠ [] → e.name r ≠ .panic) := by
  refine ⟨?_, ?_, ?_, ?_, ?_, ?_, ?_, ?_, ?_⟩
  · intro np t r e h
    obtain ⟨he, hne⟩ := get_some_shape np t r e h
    exact ⟨by rw [he], by rw [he]; exact hne⟩
  · exact fun t r => get_empty_none t r
  · intro name t o r e h
    have hsh := create_ok_shape [name] t o r e h
    exact ⟨by rw [hsh], by rw [hsh]; simp⟩
  · intro e name o r c h
    have hsh := new_child_ok_shape e name o r c h
    exact ⟨by rw [hsh], by rw [hsh]; simp⟩
  · intro e name r c h
    have hsh := child_ok_shape e name r c h
    exact ⟨by rw [hsh], by rw [hsh]; simp⟩
  · intro e r p h
    unfold CtxEntry.parent at h
    split at h
    · cases h
    · obtain ⟨hp, hne⟩ := get_some_shape _ _ _ _ h
      rw [hp]
      exact hne
  · intro e r l h c hc
    obtain ⟨n, hn⟩ := children_ok_shapes e r l h c hc
    rw [hn]
    simp
  · intro t r n ent h
    unfold CtxEntry.get_all_of_type at h
    simp only [] at h
    split at h
    · cases h
    · rcases get_all_aux_mem t r _ [] n ent h with hmem | hget
      · cases hmem
      · have hsh := (get_some_shape _ _ _ _ hget).1
        exact ⟨by rw [hsh], by rw [hsh]; simp⟩
  · exact fun e r hne => name_no_panic e r hne

/-- C10 (witness): the empty-path lookup and the panic-freedom of `name`
evaluated on the concrete entry `X`. -/
theorem constructors_nonempty_namePath_witness :
    CtxEntry.get [] .folder regFolderX = none ∧
    CtxEntry.name entryX regFolderX ≠ .panic := by
  refine ⟨constructors_nonempty_namePath.2.1 .folder regFolderX, ?_⟩
  exact constructors_nonempty_namePath.2.2.2.2.2.2.2.2 entryX regFolderX (by decide)

/-- C8 (witness): the empty rename evaluated on the concrete entry `X`. -/
theorem rename_empty_invalidInput_witness :
    CtxEntry.rename entryX "" regFolderX = (.err .invalidInput, entryX, regFolderX) :=
  rename_empty_invalidInput entryX regFolderX
